import Mathlib

/-!
Verification of the balanced-ternary library (Digit / Ternary / Tryte).

Shallow embedding conventions:
* Rust i64 is modelled as Lean Int; the checked operations carry explicit
  range tests against the i64 bounds.
* Strings are lists of characters, most-significant digit first, exactly as
  the source stores digit vectors.
* A Rust panic that a claim needs to observe is modelled as Option.none /
  Except.error; panic branches that are unreachable for the inputs a
  function is actually applied to are given junk values and marked below.
-/

/-- Digit of the balanced ternary numeral system: Neg (-1), Zero (0), Pos (+1).
Mirrors the Rust enum Digit in digit.rs. -/
inductive Digit where
  | Neg
  | Zero
  | Pos
deriving DecidableEq, Repr, Fintype

/-- Integer value of a digit, mirroring Digit::to_i8. -/
def Digit.to_i8 : Digit → Int
  | .Neg => -1
  | .Zero => 0
  | .Pos => 1

/-- Digit from its integer value, mirroring Digit::from_i8.
The source panics on any value outside {-1, 0, 1}; that arm is junk here and
is never reached by the validated call sites below. -/
def Digit.from_i8 : Int → Digit
  | -1 => .Neg
  | 0 => .Zero
  | 1 => .Pos
  | _ => .Zero

/-- Character of a digit, mirroring Digit::to_char. -/
def Digit.to_char : Digit → Char
  | .Neg => '-'
  | .Zero => '0'
  | .Pos => '+'

/-- Digit from a character, mirroring Digit::from_char.
The source panics on any character outside {-, 0, +}; that arm is junk here
and is only reached for inputs rejected by the validated call sites below. -/
def Digit.from_char (c : Char) : Digit :=
  if c = '-' then .Neg
  else if c = '0' then .Zero
  else if c = '+' then .Pos
  else .Zero

/-- Negation of a digit, mirroring the Neg impl for Digit in digit.rs. -/
def Digit.neg : Digit → Digit
  | .Neg => .Pos
  | .Zero => .Zero
  | .Pos => .Neg

/-- Ternary value: ordered digit sequence, most significant first.
Mirrors struct Ternary in lib.rs. -/
structure Ternary where
  digits : List Digit
deriving DecidableEq, Repr

/-- Digit count, mirroring Ternary::log. -/
def Ternary.log (t : Ternary) : Nat :=
  t.digits.length

/-- Value of a least-significant-first digit list starting at a given rank.
The source's Ternary::to_dec iterates the reversed digit vector with
enumerate, accumulating digit.to_i8 * 3^rank. -/
def valLSF : List Digit → Nat → Int
  | [], _ => 0
  | d :: rest, rank => d.to_i8 * 3 ^ rank + valLSF rest (rank + 1)

/-- Decimal value of a Ternary, mirroring Ternary::to_dec. -/
def Ternary.to_dec (t : Ternary) : Int :=
  valLSF t.digits.reverse 0

/-- Base-3 digits of a natural number, least significant first, always at
least one digit. Mirrors the loop of format_radix in lib.rs (push x % radix,
divide, stop when the quotient is zero); from_dec consumes these digits in
exactly this least-significant-first order via str.chars().rev(). -/
def base3Digits (x : Nat) : List Nat :=
  x % 3 :: (if h : x / 3 = 0 then [] else base3Digits (x / 3))
decreasing_by
  exact Nat.div_lt_self (Nat.pos_of_ne_zero (by omega)) (by omega)

/-- Carry sweep of Ternary::from_dec: rewrites unbalanced base-3 digits
(least significant first) into balanced digits. Digit value d plus carry:
0 or 1 keeps the digit with carry 0; 2 emits Neg with carry 1; 3 emits Zero
with carry 1; a final carry appends a leading Pos. The source panics on any
other value, which cannot arise from base-3 digits and carry at most 1; that
arm is junk here. -/
def balanceSweep : List Nat → Nat → List Digit
  | [], carry => if carry = 1 then [Digit.Pos] else []
  | d :: rest, carry =>
    if d + carry < 2 then Digit.from_i8 (d + carry) :: balanceSweep rest 0
    else if d + carry = 2 then Digit.Neg :: balanceSweep rest 1
    else if d + carry = 3 then Digit.Zero :: balanceSweep rest 1
    else []

/-- Digitwise negation of a Ternary, mirroring the Neg impl for &Ternary in
operations.rs (negates each digit in order). -/
def Ternary.neg (t : Ternary) : Ternary :=
  Ternary.mk (t.digits.map Digit.neg)

/-- Conversion from a decimal integer, mirroring Ternary::from_dec:
format |n| in base 3, sweep least-significant-first with the balancing
carry rule, reverse to most-significant-first, and negate digitwise when
n is negative (sign == -1). At n = i64::MIN the source panics in every
build mode (dec.abs() overflows in debug; in release abs wraps, so
format_radix emits a leading sign character on which the u8 parse unwrap
fails), so the value this total function returns there is junk: the
faithful fallible boundary is Ternary.from_dec_checked below, and every
theorem about from_dec itself excludes i64::MIN. -/
def Ternary.from_dec (n : Int) : Ternary :=
  let repr := Ternary.mk ((balanceSweep (base3Digits n.natAbs) 0).reverse)
  if n < 0 then repr.neg else repr

/-- Unary helper, mirroring Digit::possibly in digit.rs. -/
def Digit.possibly : Digit → Digit
  | .Neg => .Neg
  | .Zero => .Pos
  | .Pos => .Pos

/-- Unary helper, mirroring Digit::necessary in digit.rs. -/
def Digit.necessary : Digit → Digit
  | .Neg => .Neg
  | .Zero => .Neg
  | .Pos => .Pos

/-- Unary helper, mirroring Digit::absolute_positive in digit.rs. -/
def Digit.absolute_positive : Digit → Digit
  | .Neg => .Pos
  | .Zero => .Zero
  | .Pos => .Pos

/-- Unary helper, mirroring Digit::positive in digit.rs. -/
def Digit.positive : Digit → Digit
  | .Neg => .Zero
  | .Zero => .Zero
  | .Pos => .Pos

/-- Unary helper, mirroring Digit::not_negative in digit.rs. -/
def Digit.not_negative : Digit → Digit
  | .Neg => .Zero
  | .Zero => .Pos
  | .Pos => .Pos

/-- Unary helper, mirroring Digit::negative in digit.rs. -/
def Digit.negative : Digit → Digit
  | .Neg => .Neg
  | .Zero => .Zero
  | .Pos => .Zero

/-- Unary helper, mirroring Digit::absolute_negative in digit.rs. -/
def Digit.absolute_negative : Digit → Digit
  | .Neg => .Neg
  | .Zero => .Zero
  | .Pos => .Neg

/-- Ternary AND connective, mirroring the BitAnd impl for Digit in digit.rs. -/
def Digit.bitand (a other : Digit) : Digit :=
  match a with
  | .Neg => .Neg
  | .Zero => other.negative
  | .Pos => other

/-- Ternary OR connective, mirroring the BitOr impl for Digit in digit.rs. -/
def Digit.bitor (a other : Digit) : Digit :=
  match a with
  | .Neg => other
  | .Zero => other.positive
  | .Pos => .Pos

/-- Ternary XOR connective, mirroring the BitXor impl for Digit in digit.rs. -/
def Digit.bitxor (a rhs : Digit) : Digit :=
  match a with
  | .Neg => rhs
  | .Zero => .Zero
  | .Pos => rhs.neg

/-- Kleene implication, mirroring Digit::k3_imply in digit.rs. -/
def Digit.k3_imply (a other : Digit) : Digit :=
  match a with
  | .Neg => .Pos
  | .Zero => other.positive
  | .Pos => other

/-- Kleene equivalence, mirroring Digit::k3_equiv in digit.rs. -/
def Digit.k3_equiv (a other : Digit) : Digit :=
  match a with
  | .Neg =>
    match other with
    | .Neg => .Pos
    | .Zero => .Zero
    | .Pos => .Neg
  | .Zero => .Zero
  | .Pos => other

/-- Bochvar internal AND, mirroring Digit::bi3_and in digit.rs. -/
def Digit.bi3_and (a other : Digit) : Digit :=
  match a with
  | .Neg => other.absolute_negative
  | .Zero => .Zero
  | .Pos => other

/-- Bochvar internal OR, mirroring Digit::bi3_or in digit.rs. -/
def Digit.bi3_or (a other : Digit) : Digit :=
  match a with
  | .Neg => other
  | .Zero => .Zero
  | .Pos => other.absolute_positive

/-- Bochvar internal implication, mirroring Digit::bi3_imply in digit.rs. -/
def Digit.bi3_imply (a other : Digit) : Digit :=
  match a with
  | .Neg => other.absolute_positive
  | .Zero => .Zero
  | .Pos => other

/-- Lukasiewicz implication, mirroring Digit::l3_imply in digit.rs. -/
def Digit.l3_imply (a other : Digit) : Digit :=
  match a with
  | .Neg => .Pos
  | .Zero => other.not_negative
  | .Pos => other

/-- RM3 implication, mirroring Digit::rm3_imply in digit.rs. -/
def Digit.rm3_imply (a other : Digit) : Digit :=
  match a with
  | .Neg => .Pos
  | .Zero => other
  | .Pos => other.necessary

/-- Paraconsistent implication, mirroring Digit::para_imply in digit.rs. -/
def Digit.para_imply (a other : Digit) : Digit :=
  match a with
  | .Neg => .Pos
  | _ => other

/-- HT implication, mirroring Digit::ht_imply in digit.rs. -/
def Digit.ht_imply (a other : Digit) : Digit :=
  match a with
  | .Neg => .Pos
  | .Zero => other.possibly
  | .Pos => other

/-- Increment of a digit, mirroring Digit::inc in digit.rs
(the source builds the results via Ternary::parse). -/
def Digit.inc : Digit → Ternary
  | .Neg => Ternary.mk [Digit.Zero]
  | .Zero => Ternary.mk [Digit.Pos]
  | .Pos => Ternary.mk [Digit.Pos, Digit.Neg]

/-- Decrement of a digit, mirroring Digit::dec in digit.rs. -/
def Digit.dec : Digit → Ternary
  | .Neg => Ternary.mk [Digit.Neg, Digit.Pos]
  | .Zero => Ternary.mk [Digit.Neg]
  | .Pos => Ternary.mk [Digit.Zero]

/-- Single-digit addition, mirroring the Add impl for Digit in digit.rs
(lines 667-696): Neg adds by decrementing the other digit, Zero wraps the
other digit, Pos adds by incrementing the other digit. -/
def Digit.add (a other : Digit) : Ternary :=
  match a with
  | .Neg => other.dec
  | .Zero => Ternary.mk [other]
  | .Pos => other.inc

/-- Single-digit subtraction, mirroring the Sub impl for Digit in digit.rs
(lines 698-727) exactly as written: Neg maps to other.inc(), Zero wraps the
negated digit, Pos maps to other.dec(). -/
def Digit.sub (a other : Digit) : Ternary :=
  match a with
  | .Neg => other.inc
  | .Zero => Ternary.mk [other.neg]
  | .Pos => other.dec

/-- Reference truth table constructor: the nine outputs are listed for the
input pairs in the order (-,-), (-,0), (-,+), (0,-), (0,0), (0,+), (+,-),
(+,0), (+,+), matching the column order of the binary-operator table in the
spec's Glossary and the digit.rs module documentation. -/
def refTable (o1 o2 o3 o4 o5 o6 o7 o8 o9 : Digit) : Digit → Digit → Digit
  | .Neg, .Neg => o1
  | .Neg, .Zero => o2
  | .Neg, .Pos => o3
  | .Zero, .Neg => o4
  | .Zero, .Zero => o5
  | .Zero, .Pos => o6
  | .Pos, .Neg => o7
  | .Pos, .Zero => o8
  | .Pos, .Pos => o9

/-- Modelled from the spec: reference table for the AND connective. -/
def ref_bitand : Digit → Digit → Digit :=
  refTable .Neg .Neg .Neg .Neg .Zero .Zero .Neg .Zero .Pos

/-- Modelled from the spec: reference table for the OR connective. -/
def ref_bitor : Digit → Digit → Digit :=
  refTable .Neg .Zero .Pos .Zero .Zero .Pos .Pos .Pos .Pos

/-- Modelled from the spec: reference table for the XOR connective. -/
def ref_bitxor : Digit → Digit → Digit :=
  refTable .Neg .Zero .Pos .Zero .Zero .Zero .Pos .Zero .Neg

/-- Modelled from the spec: reference table for Kleene implication. -/
def ref_k3_imply : Digit → Digit → Digit :=
  refTable .Pos .Pos .Pos .Zero .Zero .Pos .Neg .Zero .Pos

/-- Modelled from the spec: reference table for Kleene equivalence. -/
def ref_k3_equiv : Digit → Digit → Digit :=
  refTable .Pos .Zero .Neg .Zero .Zero .Zero .Neg .Zero .Pos

/-- Modelled from the spec: reference table for Bochvar internal AND. -/
def ref_bi3_and : Digit → Digit → Digit :=
  refTable .Neg .Zero .Neg .Zero .Zero .Zero .Neg .Zero .Pos

/-- Modelled from the spec: reference table for Bochvar internal OR. -/
def ref_bi3_or : Digit → Digit → Digit :=
  refTable .Neg .Zero .Pos .Zero .Zero .Zero .Pos .Zero .Pos

/-- Modelled from the spec: reference table for Bochvar internal implication. -/
def ref_bi3_imply : Digit → Digit → Digit :=
  refTable .Pos .Zero .Pos .Zero .Zero .Zero .Neg .Zero .Pos

/-- Modelled from the spec: reference table for Lukasiewicz implication. -/
def ref_l3_imply : Digit → Digit → Digit :=
  refTable .Pos .Pos .Pos .Zero .Pos .Pos .Neg .Zero .Pos

/-- Modelled from the spec: reference table for RM3 implication. -/
def ref_rm3_imply : Digit → Digit → Digit :=
  refTable .Pos .Pos .Pos .Neg .Zero .Pos .Neg .Neg .Pos

/-- Modelled from the spec: reference table for paraconsistent implication. -/
def ref_para_imply : Digit → Digit → Digit :=
  refTable .Pos .Pos .Pos .Neg .Zero .Pos .Neg .Zero .Pos

/-- Modelled from the spec: reference table for HT implication. -/
def ref_ht_imply : Digit → Digit → Digit :=
  refTable .Pos .Pos .Pos .Neg .Pos .Pos .Neg .Zero .Pos

/-- Modelled from the spec: single-digit addition reference table from the
claim, with any carry as a leading digit: Neg+Neg is -+, Neg+Zero is -,
Neg+Pos is 0, Zero+x is x, Pos+Neg is 0, Pos+Zero is +, Pos+Pos is +-. -/
def ref_add : Digit → Digit → List Digit
  | .Neg, .Neg => [.Neg, .Pos]
  | .Neg, .Zero => [.Neg]
  | .Neg, .Pos => [.Zero]
  | .Zero, x => [x]
  | .Pos, .Neg => [.Zero]
  | .Pos, .Zero => [.Pos]
  | .Pos, .Pos => [.Pos, .Neg]

/-- Fixed-length left padding with Zero, mirroring Ternary::with_length:
returns the value unchanged when the requested length is smaller than the
current digit count, else prepends Zero digits. -/
def Ternary.with_length (t : Ternary) (length : Nat) : Ternary :=
  if length < t.log then t
  else Ternary.mk (List.replicate (length - t.log) Digit.Zero ++ t.digits)

/-- Leading-zero trimming, mirroring Ternary::trim: a value of decimal zero
trims to the single digit 0; otherwise the digits before the first non-Zero
digit are dropped (the first_digit flag in the source loop). -/
def Ternary.trim (t : Ternary) : Ternary :=
  if t.to_dec = 0 then Ternary.mk [Digit.Zero]
  else Ternary.mk (t.digits.dropWhile (fun d => d = Digit.Zero))

/-- Body of Ternary::each_zip for the orientation in which the receiver is
at least as long as the other operand: the other operand is padded with
with_length, the receiver is walked in reverse pairing digits of equal rank
(get_digit indexes from the right), and the output is reversed back to
most-significant-first order. -/
def each_zip_go (t : Ternary) (f : Digit → Digit → Digit) (other : Ternary) : Ternary :=
  let o := other.with_length t.log
  Ternary.mk ((List.zipWith f t.digits.reverse o.digits.reverse).reverse)

/-- Zip combinator, mirroring Ternary::each_zip: when the receiver is
strictly shorter the source recurses once with the operands swapped, and
that recursive call takes the non-swapping branch, so it equals the body
applied to the swapped operands. -/
def Ternary.each_zip (t : Ternary) (f : Digit → Digit → Digit) (other : Ternary) : Ternary :=
  if t.log < other.log then each_zip_go other f t
  else each_zip_go t f other

/-- Parse error for balanced ternary strings, mirroring the unit struct
ParseTernaryError in lib.rs: it has no fields, so it records nothing about
the rejected input. -/
structure ParseTernaryError where
deriving DecidableEq, Repr

/-- Unchecked parse, mirroring Ternary::parse: converts every character via
Digit::from_char in order (the source panics inside from_char on an invalid
character; FromStr validates before calling parse, so the junk arm of
Digit.from_char is never reached through from_str). -/
def Ternary.parse (s : List Char) : Ternary :=
  Ternary.mk (s.map Digit.from_char)

/-- Validating parse, mirroring the FromStr impl for Ternary: succeeds with
Ternary::parse exactly when every character matches + or 0 or -, and
otherwise returns the context-free unit error. -/
def Ternary.from_str (s : List Char) : Except ParseTernaryError Ternary :=
  if s.all (fun c => c = '+' || c = '0' || c = '-') then .ok (Ternary.parse s)
  else .error ParseTernaryError.mk

/-- Modelled from the spec wording of C1: the significant digit count of a
value, its length after removing leading Zero digits. -/
def significantLen (t : Ternary) : Nat :=
  (t.digits.dropWhile (fun d => d = Digit.Zero)).length

/-- Tryte: fixed six-digit balanced ternary number, mirroring struct Tryte
in tryte.rs (raw array of six digits). -/
structure Tryte where
  raw : List Digit
  raw_len : raw.length = 6

/-- Conversion to Ternary, mirroring Tryte::to_ternary. -/
def Tryte.to_ternary (t : Tryte) : Ternary :=
  Ternary.mk t.raw

/-- Conversion from Ternary, mirroring Tryte::from_ternary: the source
panics (modelled as none) when the Ternary has more than 6 digits, and
otherwise writes the digits right-aligned into an array initialized with
Zero, which is left padding with Zero to length 6. -/
def Tryte.from_ternary (v : Ternary) : Option Tryte :=
  if h : 6 < v.log then none
  else some (Tryte.mk (List.replicate (6 - v.log) Digit.Zero ++ v.digits) (by
    simp only [List.length_append, List.length_replicate, Ternary.log] at *
    omega))

/-- Lower bound of the 64-bit signed integer range. -/
def i64min : Int := -(2 ^ 63)

/-- Upper bound of the 64-bit signed integer range. -/
def i64max : Int := 2 ^ 63 - 1

/-- Fallible conversion from a decimal integer: the faithful model of
calling Ternary::from_dec on an i64. The call panics exactly at i64::MIN
(abs overflow in debug; in release the wrapped abs makes format_radix emit
a leading sign character whose u8 parse unwrap fails), modelled as none;
every other input returns the from_dec value. -/
def Ternary.from_dec_checked (n : Int) : Option Ternary :=
  if n = i64min then none else some (Ternary.from_dec n)

/-- Ternary value whose decimal value is exactly i64::MIN, the balanced
ternary digits of -(2^63); used to exhibit the from_dec panic boundary of
the arithmetic operators. -/
def ternMin : Ternary :=
  Ternary.mk [Digit.Neg, Digit.Pos, Digit.Neg, Digit.Pos, Digit.Neg, Digit.Neg, Digit.Neg,
    Digit.Zero, Digit.Zero, Digit.Neg, Digit.Neg, Digit.Neg, Digit.Zero, Digit.Zero, Digit.Pos,
    Digit.Neg, Digit.Zero, Digit.Neg, Digit.Pos, Digit.Pos, Digit.Neg, Digit.Neg, Digit.Pos,
    Digit.Zero, Digit.Neg, Digit.Zero, Digit.Neg, Digit.Zero, Digit.Pos, Digit.Zero, Digit.Pos,
    Digit.Zero, Digit.Neg, Digit.Neg, Digit.Pos, Digit.Zero, Digit.Pos, Digit.Neg, Digit.Zero,
    Digit.Zero, Digit.Pos]

/-- Checked 64-bit addition: some exactly when the exact sum is representable. -/
def checked_add (a b : Int) : Option Int :=
  if i64min ≤ a + b ∧ a + b ≤ i64max then some (a + b) else none

/-- Checked 64-bit subtraction: some exactly when the exact difference is
representable. -/
def checked_sub (a b : Int) : Option Int :=
  if i64min ≤ a - b ∧ a - b ≤ i64max then some (a - b) else none

/-- Checked 64-bit multiplication: some exactly when the exact product is
representable. -/
def checked_mul (a b : Int) : Option Int :=
  if i64min ≤ a * b ∧ a * b ≤ i64max then some (a * b) else none

/-- Checked 64-bit division (truncated toward zero, as Rust division is):
none on a zero divisor and on the single overflowing pair (i64min, -1). -/
def checked_div (a b : Int) : Option Int :=
  if b = 0 then none
  else if a = i64min ∧ b = -1 then none
  else some (a.tdiv b)

/-- Ternary addition, mirroring the Add impl for &Ternary in operations.rs:
checked decimal addition of the operand values, result rebuilt with
from_dec. Two panic sources appear in the source expression, both modelled
as none: the expect on checked overflow, and the from_dec panic when the
checked result is exactly i64::MIN. -/
def Ternary.add (u v : Ternary) : Option Ternary :=
  (checked_add u.to_dec v.to_dec).bind Ternary.from_dec_checked

/-- Ternary subtraction, mirroring the Sub impl for &Ternary in
operations.rs, with the same two panic sources modelled as none. -/
def Ternary.sub (u v : Ternary) : Option Ternary :=
  (checked_sub u.to_dec v.to_dec).bind Ternary.from_dec_checked

/-- Ternary multiplication, mirroring the Mul impl for &Ternary in
operations.rs, with the same two panic sources modelled as none. -/
def Ternary.mul (u v : Ternary) : Option Ternary :=
  (checked_mul u.to_dec v.to_dec).bind Ternary.from_dec_checked

/-- Ternary division, mirroring the Div impl for &Ternary in operations.rs,
with the same two panic sources modelled as none. -/
def Ternary.div (u v : Ternary) : Option Ternary :=
  (checked_div u.to_dec v.to_dec).bind Ternary.from_dec_checked

/-- Representability predicate for the 64-bit signed range. -/
def inI64 (n : Int) : Prop :=
  i64min ≤ n ∧ n ≤ i64max

instance : DecidablePred inI64 := fun n => by
  unfold inI64
  infer_instance

/-- Horner-form value of a least-significant-first balanced digit list. -/
def balVal : List Digit → Int
  | [] => 0
  | d :: rest => d.to_i8 + 3 * balVal rest

/-- Horner-form value of a least-significant-first unbalanced digit list. -/
def unbVal : List Nat → Nat
  | [] => 0
  | d :: rest => d + 3 * unbVal rest

/-- Positional value of a most-significant-first digit list (the head digit
carries weight 3 to the power of the number of remaining digits). -/
def msfVal : List Digit → Int
  | [] => 0
  | d :: rest => d.to_i8 * 3 ^ rest.length + msfVal rest

theorem valLSF_eq_balVal (l : List Digit) : ∀ r : Nat, valLSF l r = 3 ^ r * balVal l := by
  induction l with
  | nil => intro r; simp [valLSF, balVal]
  | cons d rest ih =>
    intro r
    simp only [valLSF, balVal, ih (r + 1)]
    ring

theorem valLSF_append (xs ys : List Digit) :
    ∀ r : Nat, valLSF (xs ++ ys) r = valLSF xs r + valLSF ys (r + xs.length) := by
  induction xs with
  | nil => intro r; simp [valLSF]
  | cons d rest ih =>
    intro r
    simp only [List.cons_append, valLSF, List.append_eq, List.length_cons]
    rw [ih (r + 1)]
    have h : r + 1 + rest.length = r + (rest.length + 1) := by omega
    rw [h]
    ring

theorem unbVal_base3Digits (x : Nat) : unbVal (base3Digits x) = x := by
  induction x using Nat.strong_induction_on with
  | _ x ih =>
    rw [base3Digits]
    by_cases h : x / 3 = 0
    · simp only [h, dif_pos, unbVal]
      omega
    · rw [dif_neg h]
      have hx : x / 3 < x := Nat.div_lt_self (Nat.pos_of_ne_zero (by omega)) (by omega)
      simp only [unbVal, ih (x / 3) hx]
      omega

theorem base3Digits_lt_three (x : Nat) : ∀ d ∈ base3Digits x, d < 3 := by
  induction x using Nat.strong_induction_on with
  | _ x ih =>
    rw [base3Digits]
    intro d hd
    by_cases h : x / 3 = 0
    · simp only [h, dif_pos, List.mem_singleton] at hd
      omega
    · rw [dif_neg h] at hd
      rcases List.mem_cons.mp hd with h1 | h2
      · omega
      · exact ih (x / 3) (Nat.div_lt_self (Nat.pos_of_ne_zero (by omega)) (by omega)) d h2

theorem balVal_balanceSweep (l : List Nat) :
    ∀ c : Nat, (∀ d ∈ l, d < 3) → c ≤ 1 →
      balVal (balanceSweep l c) = (unbVal l : Int) + c := by
  induction l with
  | nil =>
    intro c _ hc
    interval_cases c <;> simp [balanceSweep, balVal, unbVal, Digit.to_i8]
  | cons d rest ih =>
    intro c hl hc
    have hd : d < 3 := hl d (List.mem_cons_self d rest)
    have hrest : ∀ x ∈ rest, x < 3 := fun x hx => hl x (List.mem_cons_of_mem d hx)
    have h0 := ih 0 hrest (by omega)
    have h1 := ih 1 hrest (by omega)
    interval_cases c <;> interval_cases d <;>
      simp_all [balanceSweep, balVal, unbVal, Digit.from_i8, Digit.to_i8] <;> ring

theorem balVal_map_neg (l : List Digit) : balVal (l.map Digit.neg) = -balVal l := by
  induction l with
  | nil => simp [balVal]
  | cons d rest ih =>
    have hd : (Digit.neg d).to_i8 = -d.to_i8 := by cases d <;> rfl
    simp only [List.map_cons, balVal, ih, hd]
    ring

theorem to_dec_mk_reverse (l : List Digit) : (Ternary.mk l.reverse).to_dec = balVal l := by
  simp [Ternary.to_dec, List.reverse_reverse, valLSF_eq_balVal]

/-- Round-trip identity over the exact integers: from_dec then to_dec is the
identity. Release-mode Rust computes the same value for every in-range i64
because wrapping arithmetic is a ring morphism modulo 2^64. -/
theorem to_dec_from_dec (n : Int) : (Ternary.from_dec n).to_dec = n := by
  have hsweep : balVal (balanceSweep (base3Digits n.natAbs) 0) = (n.natAbs : Int) := by
    rw [balVal_balanceSweep _ 0 (base3Digits_lt_three n.natAbs) (by omega)]
    simp [unbVal_base3Digits]
  by_cases hn : n < 0
  · have : Ternary.from_dec n =
        Ternary.mk (((balanceSweep (base3Digits n.natAbs) 0).map Digit.neg).reverse) := by
      simp [Ternary.from_dec, hn, Ternary.neg, List.map_reverse]
    rw [this, to_dec_mk_reverse, balVal_map_neg, hsweep]
    omega
  · have : Ternary.from_dec n =
        Ternary.mk ((balanceSweep (base3Digits n.natAbs) 0).reverse) := by
      simp [Ternary.from_dec, hn]
    rw [this, to_dec_mk_reverse, hsweep]
    omega

theorem to_dec_eq_msfVal (l : List Digit) : (Ternary.mk l).to_dec = msfVal l := by
  induction l with
  | nil => rfl
  | cons d rest ih =>
    show valLSF (d :: rest).reverse 0 = msfVal (d :: rest)
    rw [List.reverse_cons, valLSF_append]
    have h1 : valLSF rest.reverse 0 = msfVal rest := ih
    simp only [valLSF, msfVal, List.length_reverse, h1]
    ring

theorem msfVal_cons_zero (l : List Digit) : msfVal (Digit.Zero :: l) = msfVal l := by
  simp [msfVal, Digit.to_i8]

theorem msfVal_replicate_zero (k : Nat) (l : List Digit) :
    msfVal (List.replicate k Digit.Zero ++ l) = msfVal l := by
  induction k with
  | zero => rfl
  | succ n ih =>
    rw [List.replicate_succ, List.cons_append, msfVal_cons_zero, ih]

theorem msfVal_dropWhile_zero (l : List Digit) :
    msfVal (l.dropWhile (fun d => d = Digit.Zero)) = msfVal l := by
  induction l with
  | nil => rfl
  | cons d rest ih =>
    by_cases hd : d = Digit.Zero
    · subst hd
      rw [List.dropWhile_cons_of_pos (by simp), ih, msfVal_cons_zero]
    · rw [List.dropWhile_cons_of_neg (by simp [hd])]

theorem msfVal_eq_zero_of_all_zero (l : List Digit) (h : ∀ d ∈ l, d = Digit.Zero) :
    msfVal l = 0 := by
  induction l with
  | nil => rfl
  | cons d rest ih =>
    have hd : d = Digit.Zero := h d (List.mem_cons_self d rest)
    subst hd
    rw [msfVal_cons_zero]
    exact ih (fun x hx => h x (List.mem_cons_of_mem _ hx))

theorem dropWhile_dropWhile {α : Type} (p : α → Bool) (l : List α) :
    List.dropWhile p (List.dropWhile p l) = List.dropWhile p l := by
  induction l with
  | nil => rfl
  | cons a rest ih =>
    by_cases h : p a
    · rw [List.dropWhile_cons_of_pos h, ih]
    · rw [List.dropWhile_cons_of_neg (by simpa using h),
        List.dropWhile_cons_of_neg (by simpa using h)]

theorem with_length_digits (t : Ternary) (n : Nat) (h : t.log ≤ n) :
    (t.with_length n).digits = List.replicate (n - t.log) Digit.Zero ++ t.digits := by
  rw [Ternary.with_length, if_neg (by omega)]

theorem with_length_log (t : Ternary) (n : Nat) (h : t.log ≤ n) :
    (t.with_length n).log = n := by
  show (t.with_length n).digits.length = n
  rw [with_length_digits t n h]
  simp only [List.length_append, List.length_replicate, Ternary.log] at *
  omega

theorem with_length_to_dec (t : Ternary) (n : Nat) :
    (t.with_length n).to_dec = t.to_dec := by
  rw [Ternary.with_length]
  by_cases h : n < t.log
  · rw [if_pos h]
  · rw [if_neg h]
    have h1 := to_dec_eq_msfVal (List.replicate (n - t.log) Digit.Zero ++ t.digits)
    have h2 : t.to_dec = msfVal t.digits := to_dec_eq_msfVal t.digits
    rw [h1, msfVal_replicate_zero, h2]

theorem neg_neg_map (l : List Digit) : (l.map Digit.neg).map Digit.neg = l := by
  induction l with
  | nil => rfl
  | cons d rest ih => cases d <;> simp [Digit.neg, ih]

theorem each_zip_go_digits (t o : Ternary) (f : Digit → Digit → Digit) (h : o.log ≤ t.log) :
    (each_zip_go t f o).digits = List.zipWith f t.digits (o.with_length t.log).digits := by
  have hlen : (o.with_length t.log).digits.length = t.digits.length := with_length_log o t.log h
  have hr : t.digits.reverse.length = (o.with_length t.log).digits.reverse.length := by
    simp [hlen]
  show (List.zipWith f t.digits.reverse (o.with_length t.log).digits.reverse).reverse = _
  rw [List.reverse_zipWith hr, List.reverse_reverse, List.reverse_reverse]

/-- C4: every multi-valued binary connective and implication or equivalence
operator (and, or, xor, k3_imply, k3_equiv, bi3_and, bi3_or, bi3_imply,
l3_imply, rm3_imply, para_imply, ht_imply) returns exactly the output digit
of its reference truth table on each of the nine input pairs. -/
theorem c4_truth_tables_exact : ∀ a b : Digit,
    Digit.bitand a b = ref_bitand a b ∧
    Digit.bitor a b = ref_bitor a b ∧
    Digit.bitxor a b = ref_bitxor a b ∧
    Digit.k3_imply a b = ref_k3_imply a b ∧
    Digit.k3_equiv a b = ref_k3_equiv a b ∧
    Digit.bi3_and a b = ref_bi3_and a b ∧
    Digit.bi3_or a b = ref_bi3_or a b ∧
    Digit.bi3_imply a b = ref_bi3_imply a b ∧
    Digit.l3_imply a b = ref_l3_imply a b ∧
    Digit.rm3_imply a b = ref_rm3_imply a b ∧
    Digit.para_imply a b = ref_para_imply a b ∧
    Digit.ht_imply a b = ref_ht_imply a b := by decide

/-- C6: the single-digit addition table holds as claimed, but the Sub impl
for Digit in digit.rs contradicts the claim (and the impl's own table in its
documentation): sub(Neg, Zero) evaluates Zero.inc() and yields the single
digit +, while add(Neg, negate(Zero)) yields the single digit -. -/
theorem c6_sub_contradicts_add_of_neg :
    (∀ a b : Digit, (Digit.add a b).digits = ref_add a b) ∧
    Digit.sub Digit.Neg Digit.Zero = Ternary.mk [Digit.Pos] ∧
    Digit.add Digit.Neg (Digit.neg Digit.Zero) = Ternary.mk [Digit.Neg] ∧
    Digit.sub Digit.Neg Digit.Zero ≠ Digit.add Digit.Neg (Digit.neg Digit.Zero) := by
  decide

/-- C10: digitwise negation of a Ternary is a structural involution and
preserves the digit count. -/
theorem c10_neg_structural_involution : ∀ v : Ternary,
    v.neg.neg = v ∧ v.neg.log = v.log := by
  intro v
  constructor
  · show Ternary.mk ((v.digits.map Digit.neg).map Digit.neg) = v
    rw [neg_neg_map]
  · show (v.digits.map Digit.neg).length = v.digits.length
    exact List.length_map v.digits Digit.neg

/-- C8: trim is idempotent, never returns an empty digit sequence, and
preserves the decimal value. -/
theorem c8_trim_properties : ∀ v : Ternary,
    v.trim.trim = v.trim ∧ v.trim.digits ≠ [] ∧ v.trim.to_dec = v.to_dec := by
  intro v
  have hval : v.trim.to_dec = v.to_dec := by
    rw [Ternary.trim]
    by_cases h : v.to_dec = 0
    · rw [if_pos h, h]
      decide
    · rw [if_neg h, to_dec_eq_msfVal, msfVal_dropWhile_zero]
      cases v
      exact (to_dec_eq_msfVal _).symm
  refine ⟨?_, ?_, hval⟩
  · by_cases h : v.to_dec = 0
    · have h1 : v.trim = Ternary.mk [Digit.Zero] := by rw [Ternary.trim, if_pos h]
      rw [h1]
      decide
    · have h1 : v.trim = Ternary.mk (v.digits.dropWhile (fun d => d = Digit.Zero)) := by
        rw [Ternary.trim, if_neg h]
      have h2 : v.trim.to_dec ≠ 0 := by rw [hval]; exact h
      rw [Ternary.trim, if_neg h2, h1, dropWhile_dropWhile]
  · by_cases h : v.to_dec = 0
    · rw [Ternary.trim, if_pos h]
      simp
    · rw [Ternary.trim, if_neg h]
      intro hempty
      have hnil : v.digits.dropWhile (fun d => d = Digit.Zero) = [] := hempty
      have hall : ∀ d ∈ v.digits, d = Digit.Zero := by
        intro d hd
        have hx := List.dropWhile_eq_nil_iff.mp hnil d hd
        simpa using hx
      have : v.to_dec = 0 := by
        cases v with
        | mk l => rw [to_dec_eq_msfVal]; exact msfVal_eq_zero_of_all_zero l hall
      exact h this

/-- C1 counterexample: a Ternary of seven Zero digits has significant digit
count 0 (at most 6), yet Tryte::from_ternary rejects it, because the source
tests the raw digit count v.log(), not the significant digit count. -/
theorem c1_significant_count_counterexample :
    significantLen (Ternary.mk (List.replicate 7 Digit.Zero)) ≤ 6 ∧
    Tryte.from_ternary (Ternary.mk (List.replicate 7 Digit.Zero)) = none := by
  constructor
  · decide
  · rfl

/-- C1 (amended): Tryte::from_ternary fails exactly when the raw digit count
of the source exceeds 6, and for every Ternary of at most 6 digits it
succeeds and the result converts back to a Ternary with the same decimal
value. -/
theorem c1_fixed_width_boundary (v : Ternary) :
    (Tryte.from_ternary v = none ↔ 6 < v.log) ∧
    (v.log ≤ 6 → ∃ t, Tryte.from_ternary v = some t ∧ t.to_ternary.to_dec = v.to_dec) := by
  constructor
  · by_cases h : 6 < v.log
    · simp [Tryte.from_ternary, h]
    · simp [Tryte.from_ternary, h]
  · intro h
    have hnot : ¬ 6 < v.log := by omega
    simp only [Tryte.from_ternary, dif_neg hnot]
    refine ⟨_, rfl, ?_⟩
    show (Ternary.mk (List.replicate (6 - v.log) Digit.Zero ++ v.digits)).to_dec = v.to_dec
    rw [to_dec_eq_msfVal, msfVal_replicate_zero]
    exact (to_dec_eq_msfVal v.digits).symm

/-- C1 witness: the two-digit value +- fits in a Tryte and the conversion
round-trips its decimal value. -/
theorem c1_fixed_width_boundary_witness :
    ∃ t, Tryte.from_ternary (Ternary.mk [Digit.Pos, Digit.Neg]) = some t ∧
      t.to_ternary.to_dec = (Ternary.mk [Digit.Pos, Digit.Neg]).to_dec :=
  (c1_fixed_width_boundary (Ternary.mk [Digit.Pos, Digit.Neg])).2 (by decide)

/-- C9: for every Ternary of at most 6 digits, from_ternary succeeds and
the Tryte round-trip returns exactly with_length 6 of the input: six
digits, left-padded with Zero, preserving the decimal value. -/
theorem c9_tryte_round_trip_padded (v : Ternary) (h : v.log ≤ 6) :
    ∃ t, Tryte.from_ternary v = some t ∧ t.to_ternary = v.with_length 6 ∧
      t.to_ternary.log = 6 ∧ t.to_ternary.to_dec = v.to_dec := by
  have hnot : ¬ 6 < v.log := by omega
  simp only [Tryte.from_ternary, dif_neg hnot]
  refine ⟨_, rfl, ?_, ?_, ?_⟩
  · show Ternary.mk (List.replicate (6 - v.log) Digit.Zero ++ v.digits) = v.with_length 6
    rw [Ternary.with_length, if_neg hnot]
  · show (List.replicate (6 - v.log) Digit.Zero ++ v.digits).length = 6
    have hlog : v.digits.length = v.log := rfl
    simp only [List.length_append, List.length_replicate]
    omega
  · show (Ternary.mk (List.replicate (6 - v.log) Digit.Zero ++ v.digits)).to_dec = v.to_dec
    rw [to_dec_eq_msfVal, msfVal_replicate_zero]
    exact (to_dec_eq_msfVal v.digits).symm

/-- C9 witness: the single digit + becomes the Tryte 00000+ and keeps its
decimal value 1. -/
theorem c9_tryte_round_trip_padded_witness :
    ∃ t, Tryte.from_ternary (Ternary.mk [Digit.Pos]) = some t ∧
      t.to_ternary = (Ternary.mk [Digit.Pos]).with_length 6 ∧
      t.to_ternary.log = 6 ∧
      t.to_ternary.to_dec = (Ternary.mk [Digit.Pos]).to_dec :=
  c9_tryte_round_trip_padded (Ternary.mk [Digit.Pos]) (by decide)

/-- C5: each_zip pads the shorter operand with leading Zero digits up to
the longer length, the result has the longer operand's length, and a
strictly shorter receiver swaps the operands before iterating, making the
call equal to the call with the operands exchanged. -/
theorem c5_each_zip_padding (f : Digit → Digit → Digit) (a b : Ternary) :
    (a.each_zip f b).log = max a.log b.log ∧
    (a.log < b.log → a.each_zip f b = b.each_zip f a) ∧
    (b.log ≤ a.log →
      a.each_zip f b = Ternary.mk (List.zipWith f a.digits (b.with_length a.log).digits)) := by
  have hgo : ∀ t o : Ternary, o.log ≤ t.log → (each_zip_go t f o).log = t.log := by
    intro t o h
    show (each_zip_go t f o).digits.length = t.digits.length
    rw [each_zip_go_digits t o f h, List.length_zipWith]
    have h1 : (o.with_length t.log).digits.length = t.digits.length := with_length_log o t.log h
    omega
  by_cases hab : a.log < b.log
  · refine ⟨?_, ?_, ?_⟩
    · rw [Ternary.each_zip, if_pos hab, hgo b a (Nat.le_of_lt hab)]
      omega
    · intro _
      rw [Ternary.each_zip, if_pos hab, Ternary.each_zip, if_neg (by omega)]
    · intro hba
      omega
  · refine ⟨?_, ?_, ?_⟩
    · rw [Ternary.each_zip, if_neg hab, hgo a b (by omega)]
      omega
    · intro h
      omega
    · intro hba
      rw [Ternary.each_zip, if_neg hab]
      have hd := each_zip_go_digits a b f hba
      calc each_zip_go a f b = Ternary.mk (each_zip_go a f b).digits := rfl
        _ = Ternary.mk (List.zipWith f a.digits (b.with_length a.log).digits) := by rw [hd]

/-- C5 witness: with the non-commutative AND connective, a three-digit
receiver zipped against a nine-digit operand equals the swapped call. -/
theorem c5_each_zip_padding_witness :
    Ternary.each_zip (Ternary.mk [Digit.Neg, Digit.Zero, Digit.Pos]) Digit.bitand
        (Ternary.mk [Digit.Neg, Digit.Neg, Digit.Neg, Digit.Zero, Digit.Zero, Digit.Zero,
          Digit.Pos, Digit.Pos, Digit.Pos]) =
      Ternary.each_zip (Ternary.mk [Digit.Neg, Digit.Neg, Digit.Neg, Digit.Zero, Digit.Zero,
          Digit.Zero, Digit.Pos, Digit.Pos, Digit.Pos]) Digit.bitand
        (Ternary.mk [Digit.Neg, Digit.Zero, Digit.Pos]) :=
  (c5_each_zip_padding Digit.bitand
    (Ternary.mk [Digit.Neg, Digit.Zero, Digit.Pos])
    (Ternary.mk [Digit.Neg, Digit.Neg, Digit.Neg, Digit.Zero, Digit.Zero, Digit.Zero,
      Digit.Pos, Digit.Pos, Digit.Pos])).2.1 (by decide)

/-- C7 counterexample: the parse errors produced for two different invalid
characters are one and the same value of the field-free unit struct
ParseTernaryError, so the error does not carry the invalid-character
context the claim describes. -/
theorem c7_error_carries_no_context :
    Ternary.from_str ['a'] = Except.error ParseTernaryError.mk ∧
    Ternary.from_str ['x', '+'] = Except.error ParseTernaryError.mk ∧
    Ternary.from_str ['a'] = Ternary.from_str ['x', '+'] := by
  refine ⟨rfl, rfl, rfl⟩

/-- C7 (amended): parsing through FromStr succeeds exactly when every
character is one of +, 0, -, the parsed digits map back to the input string
character for character (order preserved, most significant first), and any
invalid input fails with the context-free unit error ParseTernaryError. -/
theorem c7_parse_exactly_valid (s : List Char) :
    ((∃ t, Ternary.from_str s = Except.ok t) ↔
        s.all (fun c => c = '+' || c = '0' || c = '-') = true) ∧
    (∀ t, Ternary.from_str s = Except.ok t → t.digits.map Digit.to_char = s) ∧
    (s.all (fun c => c = '+' || c = '0' || c = '-') = false →
      Ternary.from_str s = Except.error ParseTernaryError.mk) := by
  by_cases hv : s.all (fun c => c = '+' || c = '0' || c = '-') = true
  · have hok : Ternary.from_str s = Except.ok (Ternary.parse s) := by
      rw [Ternary.from_str, if_pos hv]
    refine ⟨⟨fun _ => hv, fun _ => ⟨Ternary.parse s, hok⟩⟩, ?_, ?_⟩
    · intro t ht
      rw [hok] at ht
      have hts : t = Ternary.parse s := by
        injection ht with h1
        exact h1.symm
      subst hts
      show (s.map Digit.from_char).map Digit.to_char = s
      rw [List.map_map]
      have hchars : ∀ c ∈ s, (Digit.to_char ∘ Digit.from_char) c = id c := by
        intro c hc
        have h1 := List.all_eq_true.mp hv c hc
        have h2 : (c = '+' ∨ c = '0') ∨ c = '-' := by simpa using h1
        rcases h2 with (h | h) | h <;> subst h <;> decide
      rw [List.map_congr_left hchars, List.map_id]
    · intro hfalse
      rw [hv] at hfalse
      cases hfalse
  · have hfalse : s.all (fun c => c = '+' || c = '0' || c = '-') = false :=
      Bool.not_eq_true _ ▸ Bool.eq_false_iff.mpr hv
    have herr : Ternary.from_str s = Except.error ParseTernaryError.mk := by
      rw [Ternary.from_str, if_neg hv]
    refine ⟨⟨?_, ?_⟩, ?_, fun _ => herr⟩
    · rintro ⟨t, ht⟩
      rw [herr] at ht
      cases ht
    · intro habs
      exact absurd habs hv
    · intro t ht
      rw [herr] at ht
      cases ht

/-- C7 witness: the valid string +-0 parses to the digits Pos, Neg, Zero,
which map back to the same characters in the same order. -/
theorem c7_parse_exactly_valid_witness :
    (Ternary.mk [Digit.Pos, Digit.Neg, Digit.Zero]).digits.map Digit.to_char =
      ['+', '-', '0'] :=
  (c7_parse_exactly_valid ['+', '-', '0']).2.1
    (Ternary.mk [Digit.Pos, Digit.Neg, Digit.Zero]) rfl

/-- C3: for every 64-bit signed integer other than the minimum, converting
to balanced ternary and back is the identity. -/
theorem c3_from_dec_round_trip (n : Int) (_h1 : i64min ≤ n) (_h2 : n ≤ i64max)
    (_h3 : n ≠ i64min) : (Ternary.from_dec n).to_dec = n :=
  to_dec_from_dec n

/-- C3 witness: the round trip holds at -121. -/
theorem c3_from_dec_round_trip_witness : (Ternary.from_dec (-121)).to_dec = -121 :=
  c3_from_dec_round_trip (-121) (by decide) (by decide) (by decide)

theorem checked_bind_spec (x : Int) :
    (((if i64min ≤ x ∧ x ≤ i64max then some x else none).bind Ternary.from_dec_checked
        : Option Ternary) = none ↔ (¬ inI64 x ∨ x = i64min)) ∧
    (∀ w, ((if i64min ≤ x ∧ x ≤ i64max then some x else none).bind Ternary.from_dec_checked
        : Option Ternary) = some w → w.to_dec = x) := by
  by_cases h : i64min ≤ x ∧ x ≤ i64max
  · rw [if_pos h]
    show (Ternary.from_dec_checked x = none ↔ _) ∧ ∀ w, Ternary.from_dec_checked x = some w → _
    by_cases hmin : x = i64min
    · rw [Ternary.from_dec_checked, if_pos hmin]
      constructor
      · simp [hmin]
      · intro w hw
        cases hw
    · rw [Ternary.from_dec_checked, if_neg hmin]
      constructor
      · simp [inI64, h, hmin]
      · intro w hw
        have hwx : Ternary.from_dec x = w := by simpa using hw
        rw [← hwx, to_dec_from_dec]
  · rw [if_neg h]
    constructor
    · simp [inI64, h]
    · intro w hw
      cases hw

/-- C2 counterexample: for the operand pair with decimal values i64::MIN
and 0, checked 64-bit addition does not overflow, yet the addition operator
fails, because from_dec panics on the checked result i64::MIN (abs overflow
in debug; the unwrap on the sign character emitted by format_radix in
release); so the operators do not succeed on every non-overflowing checked
operation as the claim states. -/
theorem c2_min_result_counterexample :
    ternMin.to_dec = i64min ∧
    inI64 (ternMin.to_dec + (Ternary.mk [Digit.Zero]).to_dec) ∧
    Ternary.add ternMin (Ternary.mk [Digit.Zero]) = none := by
  refine ⟨by decide, by decide, ?_⟩
  unfold Ternary.add checked_add
  rw [if_pos (by decide)]
  show Ternary.from_dec_checked (ternMin.to_dec + (Ternary.mk [Digit.Zero]).to_dec) = none
  rw [Ternary.from_dec_checked, if_pos (by decide)]

/-- C2 (amended): the Ternary arithmetic operators perform the checked
64-bit operation on the operand decimal values and rebuild the result with
from_dec. When the operator succeeds its decimal value is the exact decimal
result; addition, subtraction and multiplication fail exactly on 64-bit
overflow or when the checked result is exactly i64::MIN (where from_dec
itself panics); division fails exactly on a zero divisor, on the single
overflowing dividend-divisor pair, or on a quotient of exactly i64::MIN. -/
theorem c2_arithmetic_checked (u v : Ternary) (_hu : inI64 u.to_dec)
    (_hv : inI64 v.to_dec) :
    (Ternary.add u v = none ↔
      (¬ inI64 (u.to_dec + v.to_dec) ∨ u.to_dec + v.to_dec = i64min)) ∧
    (∀ w, Ternary.add u v = some w → w.to_dec = u.to_dec + v.to_dec) ∧
    (Ternary.sub u v = none ↔
      (¬ inI64 (u.to_dec - v.to_dec) ∨ u.to_dec - v.to_dec = i64min)) ∧
    (∀ w, Ternary.sub u v = some w → w.to_dec = u.to_dec - v.to_dec) ∧
    (Ternary.mul u v = none ↔
      (¬ inI64 (u.to_dec * v.to_dec) ∨ u.to_dec * v.to_dec = i64min)) ∧
    (∀ w, Ternary.mul u v = some w → w.to_dec = u.to_dec * v.to_dec) ∧
    (Ternary.div u v = none ↔
      (v.to_dec = 0 ∨ (u.to_dec = i64min ∧ v.to_dec = -1) ∨
        u.to_dec.tdiv v.to_dec = i64min)) ∧
    (∀ w, Ternary.div u v = some w → w.to_dec = u.to_dec.tdiv v.to_dec) := by
  refine ⟨(checked_bind_spec (u.to_dec + v.to_dec)).1,
    (checked_bind_spec (u.to_dec + v.to_dec)).2,
    (checked_bind_spec (u.to_dec - v.to_dec)).1,
    (checked_bind_spec (u.to_dec - v.to_dec)).2,
    (checked_bind_spec (u.to_dec * v.to_dec)).1,
    (checked_bind_spec (u.to_dec * v.to_dec)).2, ?_, ?_⟩
  · simp only [Ternary.div, checked_div]
    by_cases hb : v.to_dec = 0
    · simp [hb]
    · by_cases hmin : u.to_dec = i64min ∧ v.to_dec = -1
      · simp [hb, hmin]
      · by_cases hq : u.to_dec.tdiv v.to_dec = i64min
        · simp [hb, hmin, hq, Ternary.from_dec_checked]
        · simp [hb, hmin, hq, Ternary.from_dec_checked]
  · intro w hw
    simp only [Ternary.div, checked_div] at hw
    by_cases hb : v.to_dec = 0
    · simp [hb] at hw
    · by_cases hmin : u.to_dec = i64min ∧ v.to_dec = -1
      · simp [hb, hmin] at hw
      · simp only [if_neg hb, if_neg hmin, Option.some_bind] at hw
        by_cases hq : u.to_dec.tdiv v.to_dec = i64min
        · rw [Ternary.from_dec_checked, if_pos hq] at hw
          cases hw
        · rw [Ternary.from_dec_checked, if_neg hq] at hw
          have hwx : Ternary.from_dec (u.to_dec.tdiv v.to_dec) = w := by simpa using hw
          rw [← hwx, to_dec_from_dec]

/-- C2 witness: adding the values 9 (+00) and 4 (++) succeeds and the
result's decimal value is 13. -/
theorem c2_arithmetic_checked_witness :
    ∃ w, Ternary.add (Ternary.mk [Digit.Pos, Digit.Zero, Digit.Zero])
        (Ternary.mk [Digit.Pos, Digit.Pos]) = some w ∧ w.to_dec = 13 := by
  have hsome : Ternary.add (Ternary.mk [Digit.Pos, Digit.Zero, Digit.Zero])
      (Ternary.mk [Digit.Pos, Digit.Pos]) =
      some (Ternary.from_dec ((Ternary.mk [Digit.Pos, Digit.Zero, Digit.Zero]).to_dec +
        (Ternary.mk [Digit.Pos, Digit.Pos]).to_dec)) := by
    unfold Ternary.add checked_add
    rw [if_pos (by decide)]
    show Ternary.from_dec_checked ((Ternary.mk [Digit.Pos, Digit.Zero, Digit.Zero]).to_dec +
      (Ternary.mk [Digit.Pos, Digit.Pos]).to_dec) = _
    rw [Ternary.from_dec_checked, if_neg (by decide)]
  have hval := (c2_arithmetic_checked (Ternary.mk [Digit.Pos, Digit.Zero, Digit.Zero])
    (Ternary.mk [Digit.Pos, Digit.Pos]) (by decide) (by decide)).2.1 _ hsome
  refine ⟨_, hsome, ?_⟩
  rw [hval]
  decide
